import Mathlib

/-!
Verification of the traceback-navigation tool: a shallow embedding of
`src/tb_go/main.py` (data model, frame pattern matcher, traceback parser,
selector and dispatch flow) together with theorems settling the spec claims.

Text is modelled as `List Char`.  The embedding is faithful on the ASCII
character set the frame-header format uses; Python's `\s` / `str.strip`
whitespace class is modelled by its ASCII members and `\d` by `Char.isDigit`
(ASCII decimal digits), which agree with Python on every input the format
can produce.
-/

namespace TbGo

/-- Whitespace class of Python's `\s` and `str.strip`, ASCII members:
space, tab, line feed, carriage return, vertical tab, form feed. -/
def isSpace (c : Char) : Bool :=
  c = ' ' || c = '\t' || c = '\n' || c = '\r' || c = Char.ofNat 11 || c = Char.ofNat 12

/-- Python `str.strip()`: drop whitespace from both ends. -/
def pyStrip (cs : List Char) : List Char :=
  ((cs.dropWhile isSpace).reverse.dropWhile isSpace).reverse

/-- Python `text.split('\n')`: split on every line feed; the result always has
at least one element (`"".split('\n') == [""]`). -/
def splitNl : List Char → List (List Char)
  | [] => [[]]
  | c :: rest =>
    if c = '\n' then [] :: splitNl rest
    else
      match splitNl rest with
      | [] => [[c]]
      | l :: ls => (c :: l) :: ls

/-- Python substring containment `needle in hay`. -/
def containsSub (needle : List Char) : List Char → Bool
  | [] => needle.isEmpty
  | c :: rest => needle.isPrefixOf (c :: rest) || containsSub needle rest

/-- Match a literal at the front of the input, returning the remainder on
success (the deterministic step of matching a literal regex fragment). -/
def stripPre : List Char → List Char → Option (List Char)
  | [], cs => some cs
  | _ :: _, [] => none
  | p :: ps, c :: cs => if c = p then stripPre ps cs else none

/-- Python `int` on a captured `\d+` group: decimal value of a digit string. -/
def pyIntNat (ds : List Char) : Nat :=
  ds.foldl (fun a c => a * 10 + (c.toNat - '0'.toNat)) 0

/-- Python `int(s)` modelled fallibly: succeeds exactly on non-empty digit
strings (the only shapes the pattern can hand it), else raises. -/
def pyInt (ds : List Char) : Option Nat :=
  if ds ≠ [] ∧ ds.all Char.isDigit then some (pyIntNat ds) else none

/-- Result of a successful frame-header match: the three capture groups of
`TRACEBACK_PATTERN` (`filepath`, the digit string of `line`, and the optional
`in <function>` group). -/
structure FrameMatch where
  filepath : List Char
  digits : List Char
  func : Option (List Char)
deriving DecidableEq, Repr

/-- The literal `File "` opening the frame-header pattern. -/
def filePrefix : List Char := ['F', 'i', 'l', 'e', ' ', '"']

/-- The literal `", line ` between the path and the line number. -/
def quoteLine : List Char := ['"', ',', ' ', 'l', 'i', 'n', 'e', ' ']

/-- The literal `, in ` opening the optional function clause. -/
def commaIn : List Char := [',', ' ', 'i', 'n', ' ']

/-- Predicate for the `[^"]` character class. -/
def notQuote (c : Char) : Bool := !(c = '"')

/-- `TRACEBACK_PATTERN.match(line)` for a single line (no line feed inside, the
only inputs `parse` supplies): `^\s*File "([^"]+)", line (\d+)(?:, in (.+))?$`.
The regex is deterministic — each greedy piece is bounded by a literal no
backtracking can cross — so it is a straight-line function: skip leading
whitespace, the literal `File "`, a non-empty run of non-quote characters,
the literal `", line `, a non-empty digit run, then either end of line or
`, in ` followed by a non-empty remainder captured whole. -/
def matchLine (cs : List Char) : Option FrameMatch :=
  match stripPre filePrefix (cs.dropWhile isSpace) with
  | none => none
  | some r1 =>
    if r1.takeWhile notQuote = [] then none
    else
      match stripPre quoteLine (r1.dropWhile notQuote) with
      | none => none
      | some r3 =>
        if r3.takeWhile Char.isDigit = [] then none
        else
          match r3.dropWhile Char.isDigit with
          | [] => some ⟨r1.takeWhile notQuote, r3.takeWhile Char.isDigit, none⟩
          | c :: r4 =>
            match stripPre commaIn (c :: r4) with
            | none => none
            | some fn =>
              if fn = [] then none
              else some ⟨r1.takeWhile notQuote, r3.takeWhile Char.isDigit, some fn⟩

/-- The tail of one `TRACEBACK_PATTERN.search` attempt, after the digit run:
under `re.MULTILINE` the closing `$` accepts end of input or a following line
feed, and the optional `, in (.+)` clause needs at least one character that is
not a line feed (`.` stops there, after which `$` holds again). -/
def searchTail (r4 : List Char) : Bool :=
  match r4 with
  | [] => true
  | c :: rest =>
    if c = '\n' then true
    else
      match stripPre commaIn (c :: rest) with
      | none => false
      | some fn =>
        match fn with
        | [] => false
        | d :: _ => !(d = '\n')

/-- Search stage after the `", line ` literal: a non-empty digit run, then the
tail. -/
def searchDigits (r3 : List Char) : Bool :=
  if r3.takeWhile Char.isDigit = [] then false
  else searchTail (r3.dropWhile Char.isDigit)

/-- Search stage after the path group: the `", line ` literal, then digits. -/
def searchAfterPath (r2 : List Char) : Bool :=
  match stripPre quoteLine r2 with
  | none => false
  | some r3 => searchDigits r3

/-- Search stage after the `File "` literal: the `([^"]+)` path group — which,
unlike `.`, also matches line feeds, so it may span lines — then the rest. -/
def searchPath (r1 : List Char) : Bool :=
  if r1.takeWhile notQuote = [] then false
  else searchAfterPath (r1.dropWhile notQuote)

/-- One attempt of `TRACEBACK_PATTERN.search` at a line-start anchor, given
the text from that position on.  Unlike the single-line `matchLine`, `\s*`
may span blank lines, the path group may span line feeds, and `$` accepts a
following line feed.  As in `matchLine`, every greedy piece is bounded by a
literal no backtracking can cross, so the attempt is a straight-line
function. -/
def searchFrom (s : List Char) : Bool :=
  match stripPre filePrefix (s.dropWhile isSpace) with
  | none => false
  | some r1 => searchPath r1

/-- The suffixes of the text that start right after a line feed: together
with the whole text, exactly the positions where `re.MULTILINE`'s `^` can
anchor a search attempt. -/
def tailsAfterNl : List Char → List (List Char)
  | [] => []
  | c :: rest =>
    if c = '\n' then rest :: tailsAfterNl rest else tailsAfterNl rest

/-- `TRACEBACK_PATTERN.search(text)` under `re.MULTILINE`: some attempt
anchored at the start of the text or right after a line feed succeeds. -/
def searchPattern (text : List Char) : Bool :=
  searchFrom text || (tailsAfterNl text).any searchFrom

/-- The module-level sentinel `"<module>"`. -/
def moduleSentinel : List Char := ['<', 'm', 'o', 'd', 'u', 'l', 'e', '>']

/-- `TracebackLocation` dataclass. -/
structure TracebackLocation where
  filepath : List Char
  line : Nat
  function : List Char
  code : List Char
deriving DecidableEq, Repr

/-- `TracebackLocation.__str__`:
`f"{filepath}:{line}{func_part}: {code.strip()}"` where `func_part` is
`f" in {function}"` when `function` is truthy (non-empty) and `""` otherwise. -/
def TracebackLocation.str (loc : TracebackLocation) : List Char :=
  loc.filepath ++ ':' :: (Nat.toDigits 10 loc.line)
    ++ (if loc.function = [] then [] else [' ', 'i', 'n', ' '] ++ loc.function)
    ++ ':' :: ' ' :: pyStrip loc.code

/-- The body of `parse`'s loop for one matched line `i`: `int` on the digit
group, `"<module>"` when group 3 is absent, and the bounds-guarded one-line
lookahead `lines[i+1].strip()` for `code`. -/
def locationOfMatch (lines : List (List Char)) (i : Nat) (m : FrameMatch) :
    TracebackLocation :=
  { filepath := m.filepath
    line := pyIntNat m.digits
    function := m.func.getD moduleSentinel
    code := if i + 1 < lines.length then pyStrip (lines.getD (i + 1) []) else [] }

/-- The `for i, line in enumerate(lines)` loop of `TracebackParser.parse`,
with `i` the index of the first line of `rem` within `lines`. -/
def parseFrom (lines : List (List Char)) : Nat → List (List Char) → List TracebackLocation
  | _, [] => []
  | i, l :: rest =>
    match matchLine l with
    | none => parseFrom lines (i + 1) rest
    | some m => locationOfMatch lines i m :: parseFrom lines (i + 1) rest

namespace TracebackParser

/-- `TracebackParser.parse`: split on line feeds, match every line, build a
location per match using the following line as context. -/
def parse (text : List Char) : List TracebackLocation :=
  parseFrom (splitNl text) 0 (splitNl text)

/-- The literal phrase marking the start of the report format. -/
def marker : List Char :=
  ('T' : Char) :: "raceback (most recent call last)".toList

/-- `TracebackParser.has_traceback`: the marker phrase occurs as a substring,
or `TRACEBACK_PATTERN.search(text)` finds a match somewhere in the text.
Note the search is genuinely coarser than matching single lines: the `[^"]+`
path group also matches line feeds, so a match may span a line boundary. -/
def has_traceback (text : List Char) : Bool :=
  containsSub marker text || searchPattern text

end TracebackParser

/-- Fallible variant of `parse` that makes every spot where the Python code
could raise explicit: `int()` on the digit group via `pyInt`, and the one-line
lookahead as an indexed access that is attempted only under the
`i + 1 < len(lines)` guard the code carries. -/
def parseCheckedFrom (lines : List (List Char)) :
    Nat → List (List Char) → Option (List TracebackLocation)
  | _, [] => some []
  | i, l :: rest =>
    match matchLine l with
    | none => parseCheckedFrom lines (i + 1) rest
    | some m => do
      let n ← pyInt m.digits
      let code ←
        if i + 1 < lines.length then (lines.get? (i + 1)).map pyStrip else some []
      let restLocs ← parseCheckedFrom lines (i + 1) rest
      pure ({ filepath := m.filepath, line := n, function := m.func.getD moduleSentinel,
              code := code } :: restLocs)

/-- `parse` with its fallible operations surfaced; `none` would mean a raised
exception. -/
def parseChecked (text : List Char) : Option (List TracebackLocation) :=
  parseCheckedFrom (splitNl text) 0 (splitNl text)

/-!
Dispatch flow.  The collaborators `main` talks to (stdin, clipboard, the
wrapped subprocess, fzf, vim) are modelled by an environment record fixing
each one's observable behaviour for the run; `main` is then a pure function
of that environment.
-/

/-- One run's environment: the CLI arguments and what each external
collaborator would answer. -/
structure Env where
  /-- `args.command`: the trailing argv tokens (empty list means no command). -/
  command : List (List Char)
  /-- `not sys.stdin.isatty()`. -/
  stdinPiped : Bool
  /-- what `sys.stdin.read()` returns. -/
  stdinText : List Char
  /-- what `read_clipboard` returns; `none` models `ClipboardError`. -/
  clipboard : Option (List Char)
  /-- the wrapped command's standard output. -/
  cmdStdout : List Char
  /-- the wrapped command's standard error. -/
  cmdStderr : List Char
  /-- the wrapped command's exit code. -/
  cmdExit : Int
  /-- `some msg` models `subprocess.run` itself raising with message `msg`. -/
  cmdException : Option (List Char)
  /-- whether fzf can be located and launched (the `fzf --version` check and
  the run-time exception branch both raise `FzfNotFoundError`). -/
  fzfAvailable : Bool
  /-- fzf's exit code. -/
  fzfExit : Int
  /-- fzf's captured standard output. -/
  fzfStdout : List Char

namespace CommandRunner

/-- `CommandRunner.run`: combined `stdout + stderr` and the exit code, or the
exception message with code 1 when the subprocess could not be run. -/
def run (env : Env) : List Char × Int :=
  match env.cmdException with
  | some msg => (msg, 1)
  | none => (env.cmdStdout ++ env.cmdStderr, env.cmdExit)

end CommandRunner

namespace FzfSelector

/-- `FzfSelector.select`: `Except.error` models the raised `FzfNotFoundError`;
otherwise a non-zero fzf exit is cancellation (`none`), and on success the
captured output line, stripped, is matched against each location's display
string, the first hit winning and a miss again yielding `none`. -/
def select (env : Env) (locations : List TracebackLocation) :
    Except Unit (Option TracebackLocation) :=
  if env.fzfAvailable then
    .ok (if env.fzfExit ≠ 0 then none
         else locations.find? (fun loc => loc.str = pyStrip env.fzfStdout))
  else .error ()

end FzfSelector

/-- `select_location`: try the fzf selector; on `FzfNotFoundError` fall back to
`locations[-1] if locations else None`. -/
def select_location (env : Env) (locations : List TracebackLocation) :
    Option TracebackLocation :=
  match FzfSelector.select env locations with
  | .ok r => r
  | .error _ => locations.getLast?

/-- The distinct terminal outcomes of one run, one per reported message path. -/
inductive RunOutcome where
  /-- clipboard unreadable and no other source: usage error, exit 1. -/
  | clipboardError : RunOutcome
  /-- wrapped command exited 0: success reported, nothing parsed, exit 0. -/
  | commandSucceeded : RunOutcome
  /-- `has_traceback` said no: "No traceback found", exit 1. -/
  | noTraceback : RunOutcome
  /-- detection passed but `parse` returned nothing: exit 1. -/
  | noLocations : RunOutcome
  /-- selection returned no location: "Cancelled", exit 0, no editor. -/
  | cancelled : RunOutcome
  /-- vim missing: error reported after selection, exit 1. -/
  | vimError : TracebackLocation → RunOutcome
  /-- vim launched on the selected location, exit 0. -/
  | opened : TracebackLocation → RunOutcome
deriving DecidableEq, Repr

/-- The tail of `main` once a text blob has been acquired: detection,
extraction, selection, editor launch. -/
def mainWithText (env : Env) (vimAvailable : Bool) (text : List Char) : RunOutcome :=
  if TracebackParser.has_traceback text then
    if (TracebackParser.parse text).isEmpty then .noLocations
    else
      match select_location env (TracebackParser.parse text) with
      | none => .cancelled
      | some sel => if vimAvailable then .opened sel else .vimError sel
  else .noTraceback

/-- `main`: acquisition mode precedence (command argv, else piped stdin, else
clipboard), the exit-0 short circuit for wrapped commands, then the shared
tail.  `vimAvailable` models whether `VimOpener.open`'s `vim --version` check
passes. -/
def main (env : Env) (vimAvailable : Bool) : RunOutcome :=
  if env.command.isEmpty then
    if env.stdinPiped then mainWithText env vimAvailable env.stdinText
    else
      match env.clipboard with
      | none => .clipboardError
      | some t => mainWithText env vimAvailable t
  else
    if (CommandRunner.run env).2 = 0 then .commandSucceeded
    else mainWithText env vimAvailable (CommandRunner.run env).1

/-- The text blob `main` hands to the parser, when it hands one at all
(`none` when acquisition fails or the wrapped command exits 0). -/
def acquiredText (env : Env) : Option (List Char) :=
  if env.command.isEmpty then
    if env.stdinPiped then some env.stdinText else env.clipboard
  else
    if (CommandRunner.run env).2 = 0 then none
    else some (CommandRunner.run env).1

/-- The process exit code each outcome maps to. -/
def exitCodeOf : RunOutcome → Nat
  | .clipboardError => 1
  | .commandSucceeded => 0
  | .noTraceback => 1
  | .noLocations => 1
  | .cancelled => 0
  | .vimError _ => 1
  | .opened _ => 0

/-- Whether the outcome involved launching the editor. -/
def launchesEditor : RunOutcome → Bool
  | .opened _ => true
  | _ => false

/-- The line-level data a frame match contributes to its location: capture
group 1, the decimal value of capture group 2, and group 3 or the sentinel. -/
def tripleOf (m : FrameMatch) : List Char × Nat × List Char :=
  (m.filepath, pyIntNat m.digits, m.func.getD moduleSentinel)

/-- The fields of a location determined by its own header line alone. -/
def headerTriple (loc : TracebackLocation) : List Char × Nat × List Char :=
  (loc.filepath, loc.line, loc.function)

/-! ### Lemmas about the regex pieces -/

theorem stripPre_append (p rest : List Char) : stripPre p (p ++ rest) = some rest := by
  induction p with
  | nil => rfl
  | cons c ps ih => simp [stripPre, ih]

theorem takeWhile_append_cons {p : Char → Bool} {l : List Char}
    (hall : ∀ c ∈ l, p c = true) {x : Char} (hx : p x = false) (rest : List Char) :
    (l ++ x :: rest).takeWhile p = l := by
  induction l with
  | nil => simp [List.takeWhile_cons, hx]
  | cons a as ih =>
    have ha := hall a (by simp)
    simp only [List.cons_append, List.takeWhile_cons, ha, if_true]
    rw [ih fun c hc => hall c (by simp [hc])]

theorem dropWhile_append_cons {p : Char → Bool} {l : List Char}
    (hall : ∀ c ∈ l, p c = true) {x : Char} (hx : p x = false) (rest : List Char) :
    (l ++ x :: rest).dropWhile p = x :: rest := by
  induction l with
  | nil => simp [List.dropWhile_cons, hx]
  | cons a as ih =>
    have ha := hall a (by simp)
    simp only [List.cons_append, List.dropWhile_cons, ha, if_true]
    exact ih fun c hc => hall c (by simp [hc])

theorem splitNl_of_no_nl {cs : List Char} (h : ∀ c ∈ cs, c ≠ '\n') :
    splitNl cs = [cs] := by
  induction cs with
  | nil => rfl
  | cons c rest ih =>
    have hc : c ≠ '\n' := h c (by simp)
    rw [splitNl, if_neg hc, ih fun d hd => h d (by simp [hd])]

theorem stripPre_eq_append {p xs r : List Char} (h : stripPre p xs = some r) :
    xs = p ++ r := by
  induction p generalizing xs with
  | nil =>
    simp only [stripPre] at h
    injection h with h'
  | cons c ps ih =>
    cases xs with
    | nil => simp [stripPre] at h
    | cons d ds =>
      rw [stripPre] at h
      split at h
      · next hd =>
        subst hd
        rw [List.cons_append, ih h]
      · exact absurd h (by simp)

theorem dropWhile_append_of_ne_nil {p : Char → Bool} {l : List Char}
    (h : l.dropWhile p ≠ []) (ys : List Char) :
    (l ++ ys).dropWhile p = l.dropWhile p ++ ys := by
  rw [List.dropWhile_append, if_neg]
  simpa [List.isEmpty_iff] using h

theorem takeWhile_append_of_ne_nil {p : Char → Bool} {l : List Char}
    (h : l.dropWhile p ≠ []) (ys : List Char) :
    (l ++ ys).takeWhile p = l.takeWhile p := by
  rw [List.takeWhile_append, if_neg]
  intro hlen
  apply h
  have hsum := congrArg List.length (List.takeWhile_append_dropWhile p l)
  rw [List.length_append, hlen] at hsum
  exact List.length_eq_zero.mp (by omega)

theorem splitNl_ne_nil (T : List Char) : splitNl T ≠ [] := by
  cases T with
  | nil => simp [splitNl]
  | cons c rest =>
    rw [splitNl]
    split
    · simp
    · cases h : splitNl rest <;> simp

theorem splitNl_no_nl (T : List Char) : ∀ l ∈ splitNl T, ∀ c ∈ l, c ≠ '\n' := by
  induction T with
  | nil =>
    intro l hl
    simp only [splitNl, List.mem_singleton] at hl
    subst hl
    simp
  | cons a rest ih =>
    intro l hl
    rw [splitNl] at hl
    by_cases ha : a = '\n'
    · rw [if_pos ha] at hl
      rcases List.mem_cons.mp hl with rfl | hl'
      · simp
      · exact ih l hl'
    · rw [if_neg ha] at hl
      cases hsp : splitNl rest with
      | nil => exact absurd hsp (splitNl_ne_nil rest)
      | cons m ms =>
        rw [hsp] at hl
        rcases List.mem_cons.mp hl with rfl | hl'
        · intro c hc
          rcases List.mem_cons.mp hc with rfl | hc'
          · exact ha
          · exact ih m (by rw [hsp]; exact List.mem_cons_self _ _) c hc'
        · exact ih l (by rw [hsp]; exact List.mem_cons_of_mem _ hl')

/-- The first line of the split is an initial segment of the text, the cut
(when there is one) happening exactly at a line feed. -/
theorem splitNl_head_append : ∀ (T l₀ : List Char) (ls : List (List Char)),
    splitNl T = l₀ :: ls →
    ∃ s, (s = [] ∨ ∃ r, s = '\n' :: r) ∧ l₀ ++ s = T := by
  intro T
  induction T with
  | nil =>
    intro l₀ ls h
    rw [splitNl] at h
    injection h with h1 h2
    exact ⟨[], Or.inl rfl, by rw [← h1]; rfl⟩
  | cons a rest ih =>
    intro l₀ ls h
    rw [splitNl] at h
    by_cases ha : a = '\n'
    · rw [if_pos ha] at h
      injection h with h1 h2
      exact ⟨a :: rest, Or.inr ⟨rest, by rw [ha]⟩, by rw [← h1]; rfl⟩
    · rw [if_neg ha] at h
      cases hsp : splitNl rest with
      | nil => exact absurd hsp (splitNl_ne_nil rest)
      | cons m ms =>
        rw [hsp] at h
        injection h with h1 h2
        obtain ⟨s, hshape, hs⟩ := ih m ms hsp
        exact ⟨s, hshape, by rw [← h1, List.cons_append, hs]⟩

/-- Every non-head line of the split reappears, completed to the end of the
text, as a suffix starting right after a line feed. -/
theorem mem_tailsAfterNl_of_mem_splitNl_tail : ∀ (T l : List Char),
    l ∈ (splitNl T).tail →
    ∃ s, (s = [] ∨ ∃ r, s = '\n' :: r) ∧ l ++ s ∈ tailsAfterNl T := by
  intro T
  induction T with
  | nil => intro l hl; simp [splitNl] at hl
  | cons a rest ih =>
    intro l hl
    rw [splitNl] at hl
    by_cases ha : a = '\n'
    · rw [if_pos ha] at hl
      simp only [List.tail_cons] at hl
      rw [tailsAfterNl, if_pos ha]
      cases hsp : splitNl rest with
      | nil => exact absurd hsp (splitNl_ne_nil rest)
      | cons m ms =>
        rw [hsp] at hl
        rcases List.mem_cons.mp hl with rfl | hl'
        · obtain ⟨s, hshape, hs⟩ := splitNl_head_append rest l ms hsp
          exact ⟨s, hshape, by rw [hs]; exact List.mem_cons_self _ _⟩
        · obtain ⟨s, hshape, hs⟩ :=
            ih l (by rw [hsp]; simpa using hl')
          exact ⟨s, hshape, List.mem_cons_of_mem _ hs⟩
    · rw [if_neg ha] at hl
      rw [tailsAfterNl, if_neg ha]
      cases hsp : splitNl rest with
      | nil => exact absurd hsp (splitNl_ne_nil rest)
      | cons m ms =>
        rw [hsp] at hl
        simp only [List.tail_cons] at hl
        exact ih l (by rw [hsp]; simpa using hl)

/-- Inversion for a successful frame-header match: capture group 1 is
non-empty, group 2 is a non-empty digit string, and group 3, when present,
is non-empty. -/
theorem matchLine_inv {cs : List Char} {m : FrameMatch} (h : matchLine cs = some m) :
    m.filepath ≠ [] ∧ (m.digits ≠ [] ∧ ∀ c ∈ m.digits, c.isDigit = true) ∧
      ∀ fn, m.func = some fn → fn ≠ [] := by
  unfold matchLine at h
  split at h
  · exact absurd h (by simp)
  · split at h
    · exact absurd h (by simp)
    · split at h
      · exact absurd h (by simp)
      · split at h
        · exact absurd h (by simp)
        · split at h
          · cases h
            refine ⟨by assumption, ⟨by assumption, ?_⟩, by simp⟩
            exact fun c hc => List.mem_takeWhile_imp hc
          · split at h
            · exact absurd h (by simp)
            · split at h
              · exact absurd h (by simp)
              · next hfn =>
                cases h
                refine ⟨by assumption, ⟨by assumption, ?_⟩, ?_⟩
                · exact fun c hc => List.mem_takeWhile_imp hc
                · intro fn hfn'
                  cases hfn'
                  exact hfn

theorem dropWhile_cons_neg {p : Char → Bool} {c : Char} (h : p c = false)
    (l : List Char) : (c :: l).dropWhile p = c :: l := by
  simp [List.dropWhile_cons, h]

/-- A line that matches on its own also makes the multiline search attempt at
its line-start anchor succeed, whatever follows it (nothing, or a line feed
and the rest of the text): the search consumes the same pieces, and the
strict end-of-line of the single-line match becomes a `$` before the line
feed. -/
theorem searchFrom_append_of_matchLine {l s : List Char} {m : FrameMatch}
    (h : matchLine l = some m) (hnl : ∀ c ∈ l, c ≠ '\n')
    (hs : s = [] ∨ ∃ r, s = '\n' :: r) :
    searchFrom (l ++ s) = true := by
  unfold matchLine at h
  split at h
  · exact absurd h (by simp)
  · next r1 heq1 =>
    split at h
    · exact absurd h (by simp)
    · next htk =>
      split at h
      · exact absurd h (by simp)
      · next r3 heq2 =>
        split at h
        · exact absurd h (by simp)
        · next hds =>
          have hd1 : l.dropWhile isSpace = filePrefix ++ r1 := stripPre_eq_append heq1
          have hne1 : l.dropWhile isSpace ≠ [] := by
            rw [hd1]; simp [filePrefix]
          have hstrip1 : stripPre filePrefix ((l ++ s).dropWhile isSpace)
              = some (r1 ++ s) := by
            rw [dropWhile_append_of_ne_nil hne1, hd1, List.append_assoc]
            exact stripPre_append _ _
          have e1 : searchFrom (l ++ s) = searchPath (r1 ++ s) := by
            unfold searchFrom
            rw [hstrip1]
          have hd2 : r1.dropWhile notQuote = quoteLine ++ r3 := stripPre_eq_append heq2
          have hne2 : r1.dropWhile notQuote ≠ [] := by
            rw [hd2]; simp [quoteLine]
          have htk2 : (r1 ++ s).takeWhile notQuote = r1.takeWhile notQuote :=
            takeWhile_append_of_ne_nil hne2 s
          have e2 : searchPath (r1 ++ s) = searchAfterPath (r1.dropWhile notQuote ++ s) := by
            unfold searchPath
            rw [htk2, if_neg htk, dropWhile_append_of_ne_nil hne2]
          have e3 : searchAfterPath (r1.dropWhile notQuote ++ s) = searchDigits (r3 ++ s) := by
            unfold searchAfterPath
            rw [hd2, List.append_assoc, stripPre_append]
          rw [e1, e2, e3]
          split at h
          · next heq3 =>
            have hall : ∀ a ∈ r3, Char.isDigit a = true :=
              fun a ha => List.dropWhile_eq_nil_iff.mp heq3 a ha
            have hr3 : r3 ≠ [] := by
              intro hr0
              exact hds (by rw [hr0]; rfl)
            have e4 : searchDigits (r3 ++ s) = searchTail (s.dropWhile Char.isDigit) := by
              unfold searchDigits
              rw [List.takeWhile_append_of_pos hall, List.dropWhile_append_of_pos hall,
                if_neg (by simp [hr3])]
            rw [e4]
            rcases hs with rfl | ⟨r, rfl⟩
            · rfl
            · rw [dropWhile_cons_neg (by decide) r]
              rfl
          · next c r4 heq3 =>
            split at h
            · exact absurd h (by simp)
            · next fn heq4 =>
              split at h
              · exact absurd h (by simp)
              · next hfn =>
                have hne3 : r3.dropWhile Char.isDigit ≠ [] := by
                  rw [heq3]; simp
                have e4 : searchDigits (r3 ++ s) = searchTail (c :: (r4 ++ s)) := by
                  unfold searchDigits
                  rw [takeWhile_append_of_ne_nil hne3, if_neg hds,
                    dropWhile_append_of_ne_nil hne3, heq3, List.cons_append]
                have hcomma : c :: r4 = commaIn ++ fn := stripPre_eq_append heq4
                have hc : c = ',' := by
                  have h' := hcomma
                  simp only [commaIn, List.cons_append, List.nil_append] at h'
                  injection h' with hc0 hr0
                have hcne : ¬ (c = '\n') := by
                  rw [hc]; decide
                have hstrip4 : stripPre commaIn (c :: (r4 ++ s)) = some (fn ++ s) := by
                  have hsplit : c :: (r4 ++ s) = (c :: r4) ++ s := rfl
                  rw [hsplit, hcomma, List.append_assoc]
                  exact stripPre_append _ _
                cases fn with
                | nil => exact absurd rfl hfn
                | cons d fnt =>
                  have hdl : d ∈ l := by
                    have s1 : (d :: fnt) <:+ c :: r4 := ⟨commaIn, hcomma.symm⟩
                    have s2 : c :: r4 <:+ r3 := heq3 ▸ List.dropWhile_suffix _
                    have s3 : r3 <:+ r1.dropWhile notQuote := ⟨quoteLine, hd2.symm⟩
                    have s4 : r1.dropWhile notQuote <:+ r1 := List.dropWhile_suffix _
                    have s5 : r1 <:+ l.dropWhile isSpace := ⟨filePrefix, hd1.symm⟩
                    have s6 : l.dropWhile isSpace <:+ l := List.dropWhile_suffix _
                    exact (((((s1.trans s2).trans s3).trans s4).trans s5).trans s6).subset
                      (List.mem_cons_self d fnt)
                  have hdne : d ≠ '\n' := hnl d hdl
                  have e5 : searchTail (c :: (r4 ++ s)) = !(d = '\n') := by
                    simp only [searchTail]
                    rw [if_neg hcne, hstrip4]
                    rfl
                  rw [e4, e5]
                  simp [hdne]

/-- A line of the split matching on its own is sufficient for the multiline
search over the whole text to succeed: the line is either the head of the
text or a suffix starting right after a line feed, and the search attempt
anchored there goes through. -/
theorem searchPattern_of_line_match {T : List Char}
    (h : ∃ l ∈ splitNl T, (matchLine l).isSome) :
    searchPattern T = true := by
  obtain ⟨l, hl, hm⟩ := h
  obtain ⟨m, hm'⟩ := Option.isSome_iff_exists.mp hm
  have hnl := splitNl_no_nl T l hl
  cases hsp : splitNl T with
  | nil => exact absurd hsp (splitNl_ne_nil T)
  | cons m₀ ms =>
    rw [hsp] at hl
    rcases List.mem_cons.mp hl with rfl | hl'
    · obtain ⟨s, hshape, hs⟩ := splitNl_head_append T l ms hsp
      have hsf := searchFrom_append_of_matchLine hm' hnl hshape
      unfold searchPattern
      rw [← hs, hsf]
      simp
    · have htail : l ∈ (splitNl T).tail := by
        rw [hsp]; exact hl'
      obtain ⟨s, hshape, hs⟩ := mem_tailsAfterNl_of_mem_splitNl_tail T l htail
      have hsf := searchFrom_append_of_matchLine hm' hnl hshape
      have hany : (tailsAfterNl T).any searchFrom = true :=
        List.any_eq_true.mpr ⟨l ++ s, hs, hsf⟩
      unfold searchPattern
      rw [hany]
      simp

/-! ### Lemmas about the parse loop -/

theorem parseFrom_map_headerTriple (lines : List (List Char)) (i : Nat)
    (rem : List (List Char)) :
    (parseFrom lines i rem).map headerTriple
      = rem.filterMap (fun l => (matchLine l).map tripleOf) := by
  induction rem generalizing i with
  | nil => rfl
  | cons l rest ih =>
    rw [parseFrom]
    cases hm : matchLine l with
    | none => simp [hm, ih]
    | some m => simp [hm, ih, headerTriple, tripleOf, locationOfMatch]

theorem parseFrom_ne_nil (lines : List (List Char)) (i : Nat)
    {rem : List (List Char)} {l : List Char} (hl : l ∈ rem)
    (hm : (matchLine l).isSome) : parseFrom lines i rem ≠ [] := by
  induction rem generalizing i with
  | nil => exact absurd hl (by simp)
  | cons a rest ih =>
    rw [parseFrom]
    rcases List.mem_cons.mp hl with rfl | hl'
    · cases hma : matchLine l with
      | none => rw [hma] at hm; exact absurd hm (by simp)
      | some m => simp
    · cases hma : matchLine a with
      | none => exact ih (i + 1) hl'
      | some m => simp

theorem parseFrom_eq_nil (lines : List (List Char)) (i : Nat)
    {rem : List (List Char)} (h : ∀ l ∈ rem, matchLine l = none) :
    parseFrom lines i rem = [] := by
  induction rem generalizing i with
  | nil => rfl
  | cons a rest ih =>
    rw [parseFrom, h a (by simp)]
    exact ih _ fun l hl => h l (by simp [hl])

theorem function_ne_nil_of_mem_parseFrom {lines : List (List Char)} {i : Nat}
    {rem : List (List Char)} {loc : TracebackLocation}
    (h : loc ∈ parseFrom lines i rem) : loc.function ≠ [] := by
  induction rem generalizing i with
  | nil => exact absurd h (by simp [parseFrom])
  | cons l rest ih =>
    rw [parseFrom] at h
    cases hm : matchLine l with
    | none => rw [hm] at h; exact ih h
    | some m =>
      rw [hm] at h
      rcases List.mem_cons.mp h with rfl | h'
      · obtain ⟨-, -, hfn⟩ := matchLine_inv hm
        cases hfunc : m.func with
        | none => simp [locationOfMatch, hfunc, moduleSentinel]
        | some fn =>
          simpa [locationOfMatch, hfunc] using hfn fn hfunc
      · exact ih h'

theorem locationOfMatch_mem_parseFrom (lines : List (List Char)) :
    ∀ (rem : List (List Char)) (i j : Nat) (hj : j < rem.length) (m : FrameMatch),
      matchLine (rem.get ⟨j, hj⟩) = some m →
      locationOfMatch lines (i + j) m ∈ parseFrom lines i rem := by
  intro rem
  induction rem with
  | nil => intro i j hj; exact absurd hj (by simp)
  | cons l rest ih =>
    intro i j hj m hm
    cases j with
    | zero =>
      have hm' : matchLine l = some m := hm
      rw [parseFrom, hm']
      simp
    | succ j' =>
      have hj' : j' < rest.length := Nat.lt_of_succ_lt_succ hj
      have hget : (l :: rest).get ⟨j' + 1, hj⟩ = rest.get ⟨j', hj'⟩ := rfl
      rw [hget] at hm
      have hmem := ih (i + 1) j' hj' m hm
      have harith : i + (j' + 1) = (i + 1) + j' := by omega
      rw [parseFrom]
      cases hma : matchLine l with
      | none => rw [harith]; exact hmem
      | some m' => rw [harith]; exact List.mem_cons_of_mem _ hmem

/-- A header of the clause-omitting shape `File "<fp>", line <ds>` matches,
capturing `fp` and `ds` with no function group: the regex consumes it exactly
as written, for any non-empty quote-free path and non-empty digit string. -/
theorem matchLine_no_func (fp ds : List Char)
    (hfp : fp ≠ []) (hq : ∀ c ∈ fp, c ≠ '"')
    (hds : ds ≠ []) (hd : ∀ c ∈ ds, c.isDigit = true) :
    matchLine (filePrefix ++ fp ++ quoteLine ++ ds) = some ⟨fp, ds, none⟩ := by
  have h0 : filePrefix ++ fp ++ quoteLine ++ ds
      = filePrefix ++ (fp ++ ('"' :: ([',', ' ', 'l', 'i', 'n', 'e', ' '] ++ ds))) := by
    simp [quoteLine, List.append_assoc]
  rw [h0]
  unfold matchLine
  rw [show (filePrefix ++ (fp ++ ('"' :: ([',', ' ', 'l', 'i', 'n', 'e', ' '] ++ ds)))).dropWhile isSpace
        = filePrefix ++ (fp ++ ('"' :: ([',', ' ', 'l', 'i', 'n', 'e', ' '] ++ ds)))
      from dropWhile_cons_neg (by decide) _]
  rw [stripPre_append]
  have hq' : ∀ c ∈ fp, notQuote c = true := fun c hc => by
    simp [notQuote, hq c hc]
  show (if (fp ++ ('"' :: ([',', ' ', 'l', 'i', 'n', 'e', ' '] ++ ds))).takeWhile notQuote = []
        then none else _) = _
  rw [takeWhile_append_cons hq' (by decide), dropWhile_append_cons hq' (by decide),
    if_neg hfp]
  rw [show stripPre quoteLine ('"' :: ([',', ' ', 'l', 'i', 'n', 'e', ' '] ++ ds)) = some ds
      from stripPre_append quoteLine ds]
  show (if ds.takeWhile Char.isDigit = [] then none else _) = _
  rw [List.takeWhile_eq_self_iff.mpr hd, if_neg hds,
    List.dropWhile_eq_nil_iff.mpr fun x hx => hd x hx]

/-- The fallible operations inside the parse loop always succeed. -/
theorem parseCheckedFrom_eq (lines : List (List Char)) (i : Nat)
    (rem : List (List Char)) :
    parseCheckedFrom lines i rem = some (parseFrom lines i rem) := by
  induction rem generalizing i with
  | nil => rfl
  | cons l rest ih =>
    rw [parseCheckedFrom, parseFrom]
    cases hm : matchLine l with
    | none => exact ih _
    | some m =>
      obtain ⟨-, ⟨hds, hdig⟩, -⟩ := matchLine_inv hm
      have hint : pyInt m.digits = some (pyIntNat m.digits) := by
        unfold pyInt
        rw [if_pos ⟨hds, List.all_eq_true.mpr fun c hc => hdig c hc⟩]
      by_cases hlen : i + 1 < lines.length
      · have hget : lines.get? (i + 1) = some (lines.getD (i + 1) []) := by
          simp [List.getD_eq_getElem?_getD, List.getElem?_eq_getElem hlen]
        simp [hint, hlen, hget, ih, locationOfMatch]
      · simp [hint, hlen, ih, locationOfMatch]

/-! ### Lemmas about the dispatch flow -/

theorem main_eq_mainWithText {env : Env} {vim : Bool} {t : List Char}
    (h : acquiredText env = some t) : main env vim = mainWithText env vim t := by
  unfold acquiredText at h
  unfold main
  split at h
  · next hcmd =>
    rw [if_pos hcmd]
    split at h
    · next hstdin => rw [if_pos hstdin]; cases h; rfl
    · next hstdin =>
      rw [if_neg hstdin]
      cases hc : env.clipboard with
      | none => rw [hc] at h; exact absurd h (by simp)
      | some c => rw [hc] at h; cases h; rfl
  · next hcmd =>
    rw [if_neg hcmd]
    split at h
    · exact absurd h (by simp)
    · next hexit => rw [if_neg hexit]; cases h; rfl

/-! ### The claims -/

/-- C1: for every input text, `parse` returns one location per line (of the
line-feed split) that matches the frame-header pattern, in top-to-bottom order
of appearance and with no de-duplication — projecting each location to its
header-determined fields gives exactly the in-order list of per-line match
results — and when at least one line matches, `parse` is non-empty. -/
theorem claim_C1_parse_order_and_nonempty (T : List Char)
    (h : ∃ l ∈ splitNl T, (matchLine l).isSome) :
    (TracebackParser.parse T).map headerTriple
        = (splitNl T).filterMap (fun l => (matchLine l).map tripleOf)
      ∧ TracebackParser.parse T ≠ [] := by
  obtain ⟨l, hl, hm⟩ := h
  exact ⟨parseFrom_map_headerTriple (splitNl T) 0 (splitNl T),
    parseFrom_ne_nil (splitNl T) 0 hl hm⟩

/-- C1 witness: a two-header input (a recursive frame repeated verbatim)
satisfies the hypothesis, and `parse` of it is non-empty. -/
theorem claim_C1_witness :
    TracebackParser.parse
        ("  File \"/a/b.py\", line 3, in f\n  File \"/a/b.py\", line 3, in f".toList)
      ≠ [] :=
  (claim_C1_parse_order_and_nonempty _ (by decide)).2

/-- C2 counterexample: the claim says a location whose function is the
module-level sentinel displays as `filepath:line: trimmed-code`, with no
function clause; but `__str__` omits the clause only for an empty function
string, and the sentinel is non-empty, so such a location (produced here by
`parse` itself) displays `a.py:5 in <module>: ` and not `a.py:5: `. -/
theorem claim_C2_counterexample :
    TracebackParser.parse ("File \"a.py\", line 5".toList)
        = [⟨"a.py".toList, 5, moduleSentinel, []⟩]
      ∧ TracebackLocation.str ⟨"a.py".toList, 5, moduleSentinel, []⟩
          = "a.py:5 in <module>: ".toList
      ∧ TracebackLocation.str ⟨"a.py".toList, 5, moduleSentinel, []⟩
          ≠ "a.py:5: ".toList := by
  refine ⟨by decide, by decide, by decide⟩

/-- C2 amended: the ` in function` clause is present exactly when `function`
is non-empty; since every location `parse` produces has a non-empty
`function` (the sentinel `<module>` when the header omits the clause), its
display string always carries the clause — sentinel included. -/
theorem claim_C2_amended_display_always_has_clause (T : List Char)
    (loc : TracebackLocation) (h : loc ∈ TracebackParser.parse T) :
    loc.str = loc.filepath ++ ':' :: (Nat.toDigits 10 loc.line)
        ++ [' ', 'i', 'n', ' '] ++ loc.function ++ ':' :: ' ' :: pyStrip loc.code := by
  have hfn : loc.function ≠ [] := function_ne_nil_of_mem_parseFrom h
  unfold TracebackLocation.str
  rw [if_neg hfn]
  simp [List.append_assoc]

/-- C2 amended witness: a parse-produced module-level location, with its
display string carrying the ` in <module>` clause. -/
theorem claim_C2_amended_witness :
    (⟨"a.py".toList, 5, moduleSentinel, []⟩ : TracebackLocation)
        ∈ TracebackParser.parse ("File \"a.py\", line 5".toList)
      ∧ TracebackLocation.str ⟨"a.py".toList, 5, moduleSentinel, []⟩
          = "a.py".toList ++ ':' :: (Nat.toDigits 10 5)
              ++ [' ', 'i', 'n', ' '] ++ moduleSentinel ++ ':' :: ' ' :: pyStrip [] :=
  ⟨by decide, claim_C2_amended_display_always_has_clause ("File \"a.py\", line 5".toList)
    ⟨"a.py".toList, 5, moduleSentinel, []⟩ (by decide)⟩

/-- C3 counterexample: the pattern's digit group also accepts `0`, and `int`
turns it into the value 0 instead of failing the match, so the header
`File "a.py", line 0` produces a location whose line is not positive. -/
theorem claim_C3_counterexample :
    ¬ (∀ loc ∈ TracebackParser.parse ("File \"a.py\", line 0".toList),
        1 ≤ loc.line) := by
  decide

/-- C3 amended: for every location, `line` is the decimal value of the digit
sequence the pattern captured, and the conversion always succeeds — a header
whose digits are all zeros still matches and yields `line = 0`, so the field
is a natural number but not necessarily positive.  Stated over the general
clause-omitting header: any non-empty quote-free path and any non-empty digit
string produce exactly one location carrying that decimal value. -/
theorem claim_C3_amended_line_is_decimal_of_digits (fp ds : List Char)
    (hfp : fp ≠ []) (hq : ∀ c ∈ fp, c ≠ '"') (hn : ∀ c ∈ fp, c ≠ '\n')
    (hds : ds ≠ []) (hd : ∀ c ∈ ds, c.isDigit = true) :
    TracebackParser.parse (filePrefix ++ fp ++ quoteLine ++ ds)
      = [⟨fp, pyIntNat ds, moduleSentinel, []⟩] := by
  have hm := matchLine_no_func fp ds hfp hq hds hd
  have hnl : ∀ c ∈ filePrefix ++ fp ++ quoteLine ++ ds, c ≠ '\n' := by
    have h1 : ∀ c ∈ filePrefix, c ≠ '\n' := by decide
    have h2 : ∀ c ∈ quoteLine, c ≠ '\n' := by decide
    have h3 : ∀ c ∈ ds, c ≠ '\n' := fun c hc heq => by
      have := hd c hc
      rw [heq] at this
      exact absurd this (by decide)
    intro c hc
    simp only [List.mem_append] at hc
    rcases hc with ((hc | hc) | hc) | hc
    · exact h1 c hc
    · exact hn c hc
    · exact h2 c hc
    · exact h3 c hc
  unfold TracebackParser.parse
  rw [splitNl_of_no_nl hnl, parseFrom, hm, parseFrom]
  unfold locationOfMatch
  simp

/-- C3 amended witness: the concrete path `/a/b.py` with digit string `10`. -/
theorem claim_C3_amended_witness :
    TracebackParser.parse (filePrefix ++ "/a/b.py".toList ++ quoteLine ++ "10".toList)
      = [⟨"/a/b.py".toList, pyIntNat "10".toList, moduleSentinel, []⟩] :=
  claim_C3_amended_line_is_decimal_of_digits _ _ (by decide) (by decide) (by decide)
    (by decide) (by decide)

/-- C4 counterexample: the claim's iff fails on the code because the
pattern's `[^"]+` path group also matches line feeds, so the `re.MULTILINE`
search can succeed across a line boundary.  On `File "a\nb", line 5` the
search matches (path group `a\nb`), hence `has_traceback` is true, yet the
text contains no marker and no single line of the split matches — and
`parse`, which works line by line, extracts nothing. -/
theorem claim_C4_counterexample :
    TracebackParser.has_traceback ("File \"a\nb\", line 5".toList) = true
      ∧ containsSub TracebackParser.marker ("File \"a\nb\", line 5".toList) = false
      ∧ (∀ l ∈ splitNl ("File \"a\nb\", line 5".toList), matchLine l = none)
      ∧ TracebackParser.parse ("File \"a\nb\", line 5".toList) = [] := by
  refine ⟨by decide, by decide, by decide, by decide⟩

/-- C4 amended: `has_traceback` is true exactly when the text contains the
marker phrase or the multiline pattern search succeeds — a search that may
match across a line boundary through the quoted path, so a single matching
line is sufficient but not necessary; and whenever `has_traceback` is false,
`parse` returns the empty list. -/
theorem claim_C4_amended_detection (T : List Char) :
    (TracebackParser.has_traceback T = true
        ↔ containsSub TracebackParser.marker T = true ∨ searchPattern T = true)
      ∧ ((∃ l ∈ splitNl T, (matchLine l).isSome) →
          TracebackParser.has_traceback T = true)
      ∧ (TracebackParser.has_traceback T = false → TracebackParser.parse T = []) := by
  refine ⟨?_, ?_, ?_⟩
  · unfold TracebackParser.has_traceback
    simp
  · intro h
    unfold TracebackParser.has_traceback
    rw [searchPattern_of_line_match h]
    simp
  · intro hfalse
    unfold TracebackParser.has_traceback at hfalse
    simp only [Bool.or_eq_false_iff] at hfalse
    apply parseFrom_eq_nil (splitNl T) 0
    intro l hl
    cases hml : matchLine l with
    | none => rfl
    | some m =>
      have hsp : searchPattern T = true :=
        searchPattern_of_line_match ⟨l, hl, by rw [hml]; rfl⟩
      rw [hsp] at hfalse
      exact absurd hfalse.2 (by simp)

/-- C4 amended witness: a text whose one line matches is detected, and a text
with `has_traceback` false parses to nothing. -/
theorem claim_C4_witness :
    TracebackParser.has_traceback ("  File \"a.py\", line 3, in go".toList) = true
      ∧ TracebackParser.parse ("plain text, nothing here".toList) = [] :=
  ⟨(claim_C4_amended_detection _).2.1 (by decide),
    (claim_C4_amended_detection _).2.2 (by decide)⟩

/-- C5: every location `parse` produces has a non-empty `function`; a match
whose optional function group is absent gets the module-level sentinel, never
the empty string. -/
theorem claim_C5_function_never_empty (T : List Char) (loc : TracebackLocation)
    (h : loc ∈ TracebackParser.parse T) :
    loc.function ≠ []
      ∧ ∀ (lines : List (List Char)) (i : Nat) (m : FrameMatch), m.func = none →
          (locationOfMatch lines i m).function = moduleSentinel :=
  ⟨function_ne_nil_of_mem_parseFrom h,
    fun lines i m hm => by simp [locationOfMatch, hm]⟩

/-- C5 witness: the clause-omitting header yields the sentinel. -/
theorem claim_C5_witness :
    (⟨"/a/b.py".toList, 5, moduleSentinel, []⟩ : TracebackLocation)
        ∈ TracebackParser.parse ("File \"/a/b.py\", line 5".toList)
      ∧ (⟨"/a/b.py".toList, 5, moduleSentinel, []⟩ : TracebackLocation).function ≠ [] :=
  ⟨by decide, (claim_C5_function_never_empty ("File \"/a/b.py\", line 5".toList)
    ⟨"/a/b.py".toList, 5, moduleSentinel, []⟩ (by decide)).1⟩

/-- C6: the location built from a matching line `i` is in the parse result,
its `code` is the stripped text of line `i + 1` when that line exists and the
empty string when the header is the last line, and the lookahead never goes
past one line: the `code` field is unchanged if the input is truncated right
after line `i + 1`. -/
theorem claim_C6_code_is_one_line_lookahead (T : List Char) (i : Nat)
    (hi : i < (splitNl T).length) (m : FrameMatch)
    (hm : matchLine ((splitNl T).get ⟨i, hi⟩) = some m) :
    locationOfMatch (splitNl T) i m ∈ TracebackParser.parse T
      ∧ (locationOfMatch (splitNl T) i m).code
          = (if i + 1 < (splitNl T).length
             then pyStrip ((splitNl T).getD (i + 1) []) else [])
      ∧ (locationOfMatch (splitNl T) i m).code
          = (locationOfMatch ((splitNl T).take (i + 2)) i m).code := by
  refine ⟨?_, rfl, ?_⟩
  · have h := locationOfMatch_mem_parseFrom (splitNl T) (splitNl T) 0 i hi m hm
    simpa using h
  · unfold locationOfMatch
    by_cases h : i + 1 < (splitNl T).length
    · have hlen : i + 1 < ((splitNl T).take (i + 2)).length := by
        simp only [List.length_take]
        omega
      rw [if_pos h, if_pos hlen]
      simp only [List.getD_eq_getElem?_getD, List.getElem?_take]
      rw [if_pos (by omega : i + 1 < i + 2)]
    · have hlen : ¬ i + 1 < ((splitNl T).take (i + 2)).length := by
        simp only [List.length_take]
        omega
      rw [if_neg h, if_neg hlen]

/-- C6 witness: a header followed by a code line, and a header that is the
last line. -/
theorem claim_C6_witness :
    0 < (splitNl ("File \"/a/b.py\", line 10, in foo\n    x = 1".toList)).length
      ∧ locationOfMatch (splitNl ("File \"/a/b.py\", line 10, in foo\n    x = 1".toList)) 0
            ⟨"/a/b.py".toList, "10".toList, some "foo".toList⟩
          ∈ TracebackParser.parse ("File \"/a/b.py\", line 10, in foo\n    x = 1".toList) := by
  refine ⟨by decide, ?_⟩
  exact (claim_C6_code_is_one_line_lookahead
    ("File \"/a/b.py\", line 10, in foo\n    x = 1".toList) 0 (by decide)
    ⟨"/a/b.py".toList, "10".toList, some "foo".toList⟩ (by decide)).1

/-- C7: when the fzf selector is unavailable, `select_location` falls back to
the last element of the non-empty locations list, and the whole run proceeds
with that location as if it had been selected (opening the editor when vim is
present) rather than failing. -/
theorem claim_C7_fallback_picks_last (env : Env) (vim : Bool) (text : List Char)
    (hfzf : env.fzfAvailable = false)
    (hacq : acquiredText env = some text)
    (hht : TracebackParser.has_traceback text = true)
    (hne : TracebackParser.parse text ≠ []) :
    select_location env (TracebackParser.parse text)
        = some ((TracebackParser.parse text).getLast hne)
      ∧ main env vim
          = (if vim then RunOutcome.opened ((TracebackParser.parse text).getLast hne)
             else RunOutcome.vimError ((TracebackParser.parse text).getLast hne)) := by
  have hsel : select_location env (TracebackParser.parse text)
      = some ((TracebackParser.parse text).getLast hne) := by
    unfold select_location FzfSelector.select
    rw [hfzf]
    simp [List.getLast?_eq_getLast_of_ne_nil hne]
  refine ⟨hsel, ?_⟩
  rw [main_eq_mainWithText hacq]
  unfold mainWithText
  rw [if_pos hht, if_neg (by simpa [List.isEmpty_iff] using hne), hsel]

/-- C7 witness: two headers, fzf unavailable, vim present — the run opens the
bottom-most (last) location. -/
theorem claim_C7_witness :
    main
      { command := [], stdinPiped := true,
        stdinText := "File \"/a/b.py\", line 3, in f\nFile \"/c.py\", line 7, in g".toList,
        clipboard := none, cmdStdout := [], cmdStderr := [], cmdExit := 0,
        cmdException := none, fzfAvailable := false, fzfExit := 0, fzfStdout := [] }
      true
      = RunOutcome.opened ⟨"/c.py".toList, 7, "g".toList, []⟩ := by
  have h := (claim_C7_fallback_picks_last
    { command := [], stdinPiped := true,
      stdinText := "File \"/a/b.py\", line 3, in f\nFile \"/c.py\", line 7, in g".toList,
      clipboard := none, cmdStdout := [], cmdStderr := [], cmdExit := 0,
      cmdException := none, fzfAvailable := false, fzfExit := 0, fzfStdout := [] }
    true
    ("File \"/a/b.py\", line 3, in f\nFile \"/c.py\", line 7, in g".toList)
    rfl rfl (by decide) (by decide)).2
  rw [h]
  decide

/-- C8: a non-zero fzf exit makes the selector answer "cancelled" (a normal
return, not the unavailable error), and the run then reports cancellation,
launches no editor and exits 0. -/
theorem claim_C8_nonzero_picker_exit_is_cancel (env : Env) (vim : Bool)
    (text : List Char)
    (hfzf : env.fzfAvailable = true) (hexit : env.fzfExit ≠ 0)
    (hacq : acquiredText env = some text)
    (hht : TracebackParser.has_traceback text = true)
    (hne : TracebackParser.parse text ≠ []) :
    FzfSelector.select env (TracebackParser.parse text) = .ok none
      ∧ main env vim = .cancelled
      ∧ exitCodeOf (main env vim) = 0
      ∧ launchesEditor (main env vim) = false := by
  have hsel' : FzfSelector.select env (TracebackParser.parse text) = .ok none := by
    unfold FzfSelector.select
    rw [hfzf]
    simp [hexit]
  have hsel : select_location env (TracebackParser.parse text) = none := by
    unfold select_location
    rw [hsel']
  have hmain : main env vim = .cancelled := by
    rw [main_eq_mainWithText hacq]
    unfold mainWithText
    rw [if_pos hht, if_neg (by simpa [List.isEmpty_iff] using hne), hsel]
  exact ⟨hsel', hmain, by rw [hmain]; rfl, by rw [hmain]; rfl⟩

/-- C8 witness: fzf present, user cancels (exit 130): cancelled outcome, exit
code 0, no editor. -/
theorem claim_C8_witness :
    main
      { command := [], stdinPiped := true,
        stdinText := "File \"/a/b.py\", line 3, in f".toList,
        clipboard := none, cmdStdout := [], cmdStderr := [], cmdExit := 0,
        cmdException := none, fzfAvailable := true, fzfExit := 130, fzfStdout := [] }
      true
      = RunOutcome.cancelled := by
  exact (claim_C8_nonzero_picker_exit_is_cancel
    { command := [], stdinPiped := true,
      stdinText := "File \"/a/b.py\", line 3, in f".toList,
      clipboard := none, cmdStdout := [], cmdStderr := [], cmdExit := 0,
      cmdException := none, fzfAvailable := true, fzfExit := 130, fzfStdout := [] }
    true ("File \"/a/b.py\", line 3, in f".toList)
    rfl (by decide) rfl (by decide) (by decide)).2.1

/-- C9: with a wrapped command, a zero exit code short-circuits the run —
success outcome, exit code 0, no detection, parsing, selection or editor —
and a non-zero exit hands the parser exactly the command's standard output
concatenated with its standard error, in that order. -/
theorem claim_C9_command_mode (env : Env) (vim : Bool)
    (hcmd : env.command ≠ []) (hexc : env.cmdException = none) :
    (env.cmdExit = 0 →
        main env vim = .commandSucceeded
          ∧ exitCodeOf (main env vim) = 0
          ∧ launchesEditor (main env vim) = false)
      ∧ (env.cmdExit ≠ 0 →
          main env vim = mainWithText env vim (env.cmdStdout ++ env.cmdStderr)) := by
  have hrun : CommandRunner.run env = (env.cmdStdout ++ env.cmdStderr, env.cmdExit) := by
    unfold CommandRunner.run
    rw [hexc]
  constructor
  · intro h0
    have hmain : main env vim = .commandSucceeded := by
      unfold main
      rw [if_neg (by simpa [List.isEmpty_iff] using hcmd), hrun]
      simp [h0]
    exact ⟨hmain, by rw [hmain]; rfl, by rw [hmain]; rfl⟩
  · intro hne
    unfold main
    rw [if_neg (by simpa [List.isEmpty_iff] using hcmd), hrun]
    simp [hne]

/-- C9 witness: a command exiting 0 short-circuits even though its output
contains a frame header; a command exiting 2 hands `stdout ++ stderr` on. -/
theorem claim_C9_witness :
    (main
        { command := ["prog".toList], stdinPiped := false, stdinText := [],
          clipboard := none, cmdStdout := "File \"/a/b.py\", line 3, in f".toList,
          cmdStderr := [], cmdExit := 0, cmdException := none,
          fzfAvailable := false, fzfExit := 0, fzfStdout := [] }
        true
        = RunOutcome.commandSucceeded)
      ∧ main
          { command := ["prog".toList], stdinPiped := false, stdinText := [],
            clipboard := none, cmdStdout := "out".toList, cmdStderr := "err".toList,
            cmdExit := 2, cmdException := none,
            fzfAvailable := false, fzfExit := 0, fzfStdout := [] }
          true
          = mainWithText
              { command := ["prog".toList], stdinPiped := false, stdinText := [],
                clipboard := none, cmdStdout := "out".toList, cmdStderr := "err".toList,
                cmdExit := 2, cmdException := none,
                fzfAvailable := false, fzfExit := 0, fzfStdout := [] }
              true ("out".toList ++ "err".toList) :=
  ⟨((claim_C9_command_mode _ true (by decide) rfl).1 rfl).1,
    (claim_C9_command_mode _ true (by decide) rfl).2 (by decide)⟩

/-- C10: `parse` is total — on every input, including the empty string,
inputs with no line feed and inputs whose last line is a frame header, the
variant that surfaces every fallible operation (the `int` conversion of the
captured digits and the bounds-guarded one-line lookahead) succeeds and
returns exactly what `parse` returns. -/
theorem claim_C10_parse_total (T : List Char) :
    parseChecked T = some (TracebackParser.parse T) :=
  parseCheckedFrom_eq (splitNl T) 0 (splitNl T)

/-- Sanity check, the spec's scenario A: one frame header with a function
clause followed by a code line. -/
theorem scenarioA :
    TracebackParser.parse ("File \"/a/b.py\", line 10, in foo\n    x = 1\n".toList)
      = [⟨"/a/b.py".toList, 10, "foo".toList, "x = 1".toList⟩] := by
  decide

/-- Sanity check, the spec's scenario B: a clause-omitting header with no
following line. -/
theorem scenarioB :
    TracebackParser.parse ("File \"/a/b.py\", line 5".toList)
      = [⟨"/a/b.py".toList, 5, moduleSentinel, []⟩] := by
  decide

end TbGo
